import Mathlib

/-!
Verification of the `rogue_logging` crate's diagnostic core and log sink
against its specification.

Rust strings are modelled as `List Char` (`Str`), machine integers as `Nat`,
optional values as `Option`.  Each Rust function used by the verified
properties is translated to a Lean definition of the same name (except where
the Rust name is a Lean keyword, noted at the definition).
-/

namespace RogueLogging

/-- Rust `String` / `&str`, modelled as a list of characters. -/
abbrev Str := List Char

/-- Shorthand to build a `Str` from a Lean string literal. -/
def str (s : String) : Str := s.toList

/-- Rust `Option::or` / `or_else` (left-biased choice). -/
def orO {α : Type} : Option α → Option α → Option α
  | some x, _ => some x
  | none, b => b

/-- The newline written between the action line and each context line. -/
def newline : Str := ['\n']

/-- Renders a `u16` the way serde/`Display` renders it (decimal digits). -/
def natStr (n : Nat) : Str := (toString n).toList

/-- `miette::Severity` (external crate, closed three-valued enum). -/
inductive MietteSeverity where
  | advice
  | warning
  | error
deriving DecidableEq

/-- The serializable `Error` record from `src/errors/error.rs`.

The `backtrace` field is an opaque captured stack trace; only its
presence/absence is observable to the verified properties, but we keep its
payload as a `Str` placeholder. -/
structure Error where
  action : Str
  message : Str
  domain : Option Str
  status_code : Option Nat
  backtrace : Option Str
deriving DecidableEq

/-- `impl Clone for Error`: field-by-field copy except `backtrace`,
which is always `None` in the copy. -/
def Error.clone (e : Error) : Error :=
  { action := e.action
    domain := e.domain
    message := e.message
    status_code := e.status_code
    backtrace := none }

/-- The serde-derived serialization of `Error` as an ordered key/value
mapping: `action` and `message` always; `domain` and `status_code` carry
`skip_serializing_if = Option.is_none`; `backtrace` carries `serde(skip)`
and is never emitted. -/
def Error.serialize (e : Error) : List (Str × Str) :=
  [(str "action", e.action), (str "message", e.message)]
    ++ (match e.domain with
        | some d => [(str "domain", d)]
        | none => [])
    ++ (match e.status_code with
        | some c => [(str "status_code", natStr c)]
        | none => [])

/-- The `Action` trait dictionary for an action type `A`: its `Debug`
rendering, its `Display` rendering, and the value of
`std::any::type_name::<A>()` (a per-type constant). -/
structure ActionImpl (A : Type) where
  debugFmt : A → Str
  displayFmt : A → Str
  typeName : Str

/-- The `Failure<T>` wrapper from `src/errors/failure.rs`.

The boxed `source` error is modelled by its `Display` rendering (the only
operation the verified properties apply to it); each boxed `related`
diagnostic is likewise abstracted to a `Str` and never inspected. -/
structure Failure (A : Type) where
  action : A
  code : Option Str
  help : Option Str
  url : Option Str
  severity : Option MietteSeverity
  related : List Str
  additional : List (Str × Str)
  source : Option Str

/-- `Failure::new`: action plus a source error. -/
def Failure.new {A : Type} (action : A) (source : Str) : Failure A :=
  { action := action
    code := none
    help := none
    url := none
    severity := none
    related := []
    additional := []
    source := some source }

/-- `Failure::from_action`: action only, no source. -/
def Failure.from_action {A : Type} (action : A) : Failure A :=
  { action := action
    code := none
    help := none
    url := none
    severity := none
    related := []
    additional := []
    source := none }

/-- `self.additional.iter().find(|(k, _)| k == key).map(|(_, v)| v.clone())`:
value of the first entry whose key matches. -/
def getValue (key : Str) : List (Str × Str) → Option Str
  | [] => none
  | (k, v) :: rest => if k = key then some v else getValue key rest

/-- `Failure::get`. -/
def Failure.get {A : Type} (f : Failure A) (key : Str) : Option Str :=
  getValue key f.additional

/-- The list update performed by `Failure::set`: replace the value of the
first entry whose key matches, else append the pair at the end. -/
def setValue (key value : Str) : List (Str × Str) → List (Str × Str)
  | [] => [(key, value)]
  | (k, v) :: rest =>
    if k = key then (k, value) :: rest else (k, v) :: setValue key value rest

/-- `Failure::set`. -/
def Failure.set {A : Type} (f : Failure A) (key value : Str) : Failure A :=
  { f with additional := setValue key value f.additional }

/-- `Failure::with` (named `withCtx` because `with` is a Lean keyword):
append the pair, never deduplicating. -/
def Failure.withCtx {A : Type} (f : Failure A) (key value : Str) : Failure A :=
  { f with additional := f.additional ++ [(key, value)] }

/-- One rendered context line `"▷ {k}: {v}"` (the non-fancy build; the
`miette-fancy` styling wraps the same text in color escapes). -/
def entryLine (p : Str × Str) : Str :=
  str "▷ " ++ p.1 ++ str ": " ++ p.2

/-- `Failure::display_additional`: fold writing `"\n{line}"` per entry. -/
def Failure.display_additional {A : Type} (f : Failure A) : Str :=
  f.additional.foldl (fun acc p => acc ++ newline ++ entryLine p) []

/-- `impl Display for Failure`: `"Failed to {action}"`, then the additional
context block when `additional` is non-empty. -/
def Failure.display {A : Type} (f : Failure A) (ia : ActionImpl A) : Str :=
  str "Failed to " ++ ia.displayFmt f.action
    ++ (if f.additional.isEmpty then [] else f.display_additional)

/-- `Failure::to_error`. -/
def Failure.to_error {A : Type} (f : Failure A) (ia : ActionImpl A) : Error :=
  { action := ia.displayFmt f.action
    message :=
      match f.source with
      | none => []
      | some s => s
    domain := orO (f.get (str "domain")) (some ia.typeName)
    status_code := none
    backtrace := none }

/-- The characters at which `short_code` cuts the `Debug` rendering:
space, `(`, and the opening curly brace (written via its code point). -/
def isCutChar (c : Char) : Bool :=
  c = ' ' || c = '(' || c = Char.ofNat 123

/-- `debug.split([' ', '(', '{']).next().unwrap_or(&debug)`: the prefix of
the `Debug` rendering before the first cut character (`split` always yields
at least this first piece, so the `unwrap_or` fallback never fires). -/
def firstWordOf (s : Str) : Str :=
  s.takeWhile (fun c => !isCutChar c)

/-- Rust `full.split("::")`: non-overlapping left-to-right split on the
two-character separator; an empty input yields one empty piece.  When the
separator occurs at the current position the piece is cut; otherwise the
current character extends the first piece of the split of the remainder
(the split of the remainder is never empty, so `headD`/`tail` simply
destructure it). -/
def splitOnColons : Str → List Str
  | [] => [[]]
  | [c] => [[c]]
  | c1 :: c2 :: rest =>
    if c1 = ':' ∧ c2 = ':' then
      [] :: splitOnColons rest
    else
      let r := splitOnColons (c2 :: rest)
      (c1 :: r.headD []) :: r.tail

/-- The `::` separator written between code segments. -/
def sepColons : Str := str "::"

/-- The `short_code` function from `src/errors/failure.rs`, taking the
value of `type_name::<T>()` and the `Debug` rendering of the action. -/
def shortCode (full : Str) (debugStr : Str) : Str :=
  let segments := splitOnColons full
  let crate_name := segments.head?.getD full
  let type_name_segment := segments.getLast?.getD full
  let first_word := firstWordOf debugStr
  if first_word = type_name_segment then
    if segments.length > 2 then
      let parent := segments.getD (segments.length - 2) []
      crate_name ++ sepColons ++ parent ++ sepColons ++ type_name_segment
    else
      crate_name ++ sepColons ++ type_name_segment
  else
    crate_name ++ sepColons ++ type_name_segment ++ sepColons ++ first_word

/-- `Diagnostic::code` for `Failure`: the caller override when set, else
the synthesised short code.  Always `some`. -/
def Failure.diagnosticCode {A : Type} (f : Failure A) (ia : ActionImpl A) :
    Option Str :=
  some ((f.code).getD (shortCode ia.typeName (ia.debugFmt f.action)))

/-- Modelled from the spec (§4.3), for comparison with `shortCode`: split
the identity on `::` with the first segment as the crate name and the last
as the type name; cut the debug rendering at the first space, `(` or curly
brace; a struct-like action (first word equal to the type name) yields
`crate::type` for paths of at most two segments and `crate::parent::type`
otherwise; an enum variant yields `crate::type::first_word`. -/
def shortCodeSpec (full : Str) (debugStr : Str) : Str :=
  let segments := splitOnColons full
  let crate_name := segments.headD []
  let type_name := segments.getLastD []
  let first_word := firstWordOf debugStr
  if first_word = type_name then
    if segments.length ≤ 2 then
      crate_name ++ sepColons ++ type_name
    else
      crate_name ++ sepColons ++ segments.getD (segments.length - 2) []
        ++ sepColons ++ type_name
  else
    crate_name ++ sepColons ++ type_name ++ sepColons ++ first_word

/-- `true` when a string contains no space, `(`, or opening curly brace. -/
def badFree (s : Str) : Bool :=
  s.all (fun c => !isCutChar c)

/-- One consuming builder step on the additional-context list:
`with(k, v)` (append) or `set(k, v)` (replace-first-or-append). -/
inductive Step where
  | withStep (key value : Str)
  | setStep (key value : Str)
deriving DecidableEq

/-- Apply one builder step to a `Failure`. -/
def applyStep {A : Type} (f : Failure A) : Step → Failure A
  | .withStep k v => f.withCtx k v
  | .setStep k v => f.set k v

/-- Apply a sequence of builder steps left to right. -/
def applyTrace {A : Type} (f : Failure A) (steps : List Step) : Failure A :=
  steps.foldl applyStep f

/-- The value of the last `set(k, ·)` in a trace, when any. -/
def lastSetVal : List Step → Str → Option Str
  | [], _ => none
  | .setStep k' v :: rest, k =>
    orO (lastSetVal rest k) (if k' = k then some v else none)
  | .withStep _ _ :: rest, k => lastSetVal rest k

/-- The value of the first `with(k, ·)` in a trace, when any. -/
def firstWithVal : List Step → Str → Option Str
  | [], _ => none
  | .withStep k' v :: rest, k =>
    if k' = k then some v else firstWithVal rest k
  | .setStep _ _ :: rest, k => firstWithVal rest k

/-- `true` when no `set` step with the given key occurs in the trace. -/
def noSetFor (steps : List Step) (key : Str) : Bool :=
  steps.all fun s =>
    match s with
    | .setStep k' _ => !(k' = key : Bool)
    | .withStep _ _ => true

/-- The right-hand side of claim C4's biconditional, read literally: some
`with(k, v)` or `set(k, v)` occurs in the trace, and no `set(k, v')` occurs
later than that occurrence. -/
def claimC4Pred : List Step → Str → Str → Bool
  | [], _, _ => false
  | s :: rest, k, v =>
    (match s with
     | .withStep k' v' => (k' = k : Bool) && (v' = v : Bool) && noSetFor rest k
     | .setStep k' v' => (k' = k : Bool) && (v' = v : Bool) && noSetFor rest k)
    || claimC4Pred rest k v

/-- The log verbosity levels.  Modelled from the spec: the source file
`verbosity.rs` is not present in the repository snapshot; the spec fixes
the closed ordered set Silent < Error < Warn < Info < Debug < Trace with
stable numeric ranks and default Info. -/
inductive Verbosity where
  | silent
  | error
  | warn
  | info
  | debug
  | trace
deriving DecidableEq

/-- Modelled from the spec: stable numeric rank of a verbosity level. -/
def Verbosity.asNum : Verbosity → Nat
  | .silent => 0
  | .error => 1
  | .warn => 2
  | .info => 3
  | .debug => 4
  | .trace => 5

/-- `log::LevelFilter` (external facade). -/
inductive LevelFilter where
  | off
  | errorF
  | warnF
  | infoF
  | debugF
  | traceF
deriving DecidableEq

/-- Modelled from the spec: a verbosity maps outward to the facade's level
filter, with Silent mapping to "filter everything off". -/
def Verbosity.toLevelFilter : Verbosity → LevelFilter
  | .silent => .off
  | .error => .errorF
  | .warn => .warnF
  | .info => .infoF
  | .debug => .debugF
  | .trace => .traceF

/-- `TimeFormat` from `src/time_format.rs` (`None` renamed: it is an
`Option` constructor name in Lean). -/
inductive TimeFormat where
  | localT
  | utcT
  | elapsedT
  | noneT
deriving DecidableEq

/-- `LoggerOptions` from `src/options.rs`. -/
structure LoggerOptions where
  verbosity : Option Verbosity
  log_time_format : Option TimeFormat
  log_include_filters : Option (List Str)
  log_exclude_filters : Option (List Str)

/-- The hard-coded `PACKAGE_NAME` constant of the sink's own package. -/
def packageName : Str := str "rogue_logging"

/-- `Logger::exclude_by_target` from `src/logger.rs`: the exclude loop
returns `true` as soon as a configured exclude filter is a prefix of the
target; the include loop pushes `PACKAGE_NAME` onto the configured include
filters and returns `true` as soon as one augmented filter is *not* a
prefix of the target. -/
def excludeByTarget (o : LoggerOptions) (target : Str) : Bool :=
  (match o.log_exclude_filters with
   | some filters => filters.any fun f => f.isPrefixOf target
   | none => false)
  ||
  (match o.log_include_filters with
   | some filters =>
     (filters ++ [packageName]).any fun f => !(f.isPrefixOf target)
   | none => false)

/-- `Logger::exclude_by_verbosity`. -/
def excludeByVerbosity (o : LoggerOptions) (v : Verbosity) : Bool :=
  v.asNum > (o.verbosity.getD .info).asNum

/-- `Log::enabled` for `Logger`, over the event's target and the verbosity
corresponding to the event's level. -/
def enabled (o : LoggerOptions) (target : Str) (v : Verbosity) : Bool :=
  !excludeByTarget o target && !excludeByVerbosity o v

/-- The process-wide state touched by `init` in `src/logging/init.rs`:
the `IS_INITIALIZED` atomic flag, the color override, the facade's max
level, and the lines written at trace level. -/
structure InitState where
  flagSet : Bool
  colorOverride : Option Bool
  maxLevel : Option LevelFilter
  traced : List Str

/-- The trace line written when `set_boxed_logger` fails, with the
registration error's rendering appended. -/
def initFailLine (err : Str) : Str :=
  str "Failed to initialize the logger: " ++ err

/-- The free `init` function from `src/logging/init.rs`.  The outcome of
`set_boxed_logger` is an environment input: `none` for `Ok(())`, or
`some err` for `Err` with rendering `err`.  Returns the boolean result
paired with the updated process state. -/
def initLogger (s : InitState) (registration : Option Str)
    (verbosity : Option Verbosity) : Bool × InitState :=
  if s.flagSet then
    (false, s)
  else
    let s1 : InitState :=
      { s with flagSet := true, colorOverride := some true }
    match registration with
    | none =>
      (true, { s1 with
                 maxLevel := some (verbosity.getD Verbosity.info).toLevelFilter })
    | some err =>
      (true, { s1 with traced := s1.traced ++ [initFailLine err] })

/-- A two-variant enum action used for concrete witnesses, mirroring the
test action type of the repository. -/
inductive SimpleEnum where
  | readV
  | writeV
deriving DecidableEq

/-- The `Action` dictionary the Rust compiler derives for `SimpleEnum`
inside the crate: debug renders the variant name, display a phrase. -/
def simpleEnumImpl : ActionImpl SimpleEnum :=
  { debugFmt := fun a =>
      match a with
      | .readV => str "Read"
      | .writeV => str "Write"
    displayFmt := fun a =>
      match a with
      | .readV => str "read"
      | .writeV => str "write"
    typeName := str "rogue_logging::errors::failure::SimpleEnum" }

/-- A stand-in for the action type `&dyn core::error::Error` (references
to trait objects implement both `Debug` and `Display`, so they are valid
action types); `type_name` for it renders as `"&dyn core::error::Error"`,
which contains a space. -/
inductive DynErrAction where
  | custom
deriving DecidableEq

/-- The `Action` dictionary for `&dyn core::error::Error` wrapping an
`io::Error`: its debug rendering starts with the word `Custom`. -/
def dynErrImpl : ActionImpl DynErrAction :=
  { debugFmt := fun _ => str "Custom"
    displayFmt := fun _ => str "file not found"
    typeName := str "&dyn core::error::Error" }

/-- The two-step trace `set(k, a); with(k, b)` used to test claim C4. -/
def c4Steps : List Step :=
  [Step.setStep (str "k") (str "a"), Step.withStep (str "k") (str "b")]

/-- The logger options used to test claim C1: one include filter `"app"`,
no exclude filters. -/
def c1Options : LoggerOptions :=
  { verbosity := none
    log_time_format := none
    log_include_filters := some [str "app"]
    log_exclude_filters := none }

/-- A fresh process state: flag clear, nothing registered, nothing traced. -/
def freshInitState : InitState :=
  { flagSet := false, colorOverride := none, maxLevel := none, traced := [] }

theorem orO_some {α : Type} (x : α) (b : Option α) : orO (some x) b = some x := rfl

theorem orO_none {α : Type} (b : Option α) : orO none b = b := rfl

theorem orO_none_right {α : Type} (a : Option α) : orO a none = a := by
  cases a <;> rfl

theorem orO_assoc {α : Type} (a b c : Option α) :
    orO (orO a b) c = orO a (orO b c) := by
  cases a <;> rfl

theorem getValue_append_single (k k' v' : Str) (l : List (Str × Str)) :
    getValue k (l ++ [(k', v')])
      = orO (getValue k l) (if k' = k then some v' else none) := by
  induction l with
  | nil =>
    by_cases h : k' = k <;> simp [getValue, h, orO]
  | cons p rest ih =>
    by_cases h : p.1 = k <;> simp [getValue, h, orO, ih]

theorem getValue_setValue_self (k v : Str) (l : List (Str × Str)) :
    getValue k (setValue k v l) = some v := by
  induction l with
  | nil => simp [setValue, getValue]
  | cons p rest ih =>
    by_cases h : p.1 = k <;> simp [setValue, getValue, h, ih]

theorem getValue_setValue_ne (k k' v' : Str) (h : k' ≠ k) (l : List (Str × Str)) :
    getValue k (setValue k' v' l) = getValue k l := by
  induction l with
  | nil => simp [setValue, getValue, h]
  | cons p rest ih =>
    by_cases hp : p.1 = k'
    · simp [setValue, getValue, hp, h, Ne.symm h]
    · by_cases hk : p.1 = k <;>
        simp [setValue, getValue, hp, hk, ih, Ne.symm h]

theorem setValue_setValue (k a b : Str) (l : List (Str × Str)) :
    setValue k b (setValue k a l) = setValue k b l := by
  induction l with
  | nil => simp [setValue]
  | cons p rest ih =>
    by_cases h : p.1 = k <;> simp [setValue, h, ih]

theorem foldl_entryLines (l : List (Str × Str)) (acc : Str) :
    l.foldl (fun a p => a ++ newline ++ entryLine p) acc
      = acc ++ (l.map (fun p => newline ++ entryLine p)).flatten := by
  induction l generalizing acc with
  | nil => simp
  | cons p rest ih =>
    rw [List.foldl_cons, ih]
    simp [List.append_assoc]

theorem splitOnColons_ne_nil (s : Str) : splitOnColons s ≠ [] := by
  induction s using splitOnColons.induct with
  | case1 => simp [splitOnColons]
  | case2 c => simp [splitOnColons]
  | case3 c1 c2 rest hcond ih => simp [splitOnColons, hcond]
  | case4 c1 c2 rest hcond ih => simp [splitOnColons, hcond]

theorem mem_takeWhile_pred {α : Type} (p : α → Bool) (l : List α) (a : α)
    (h : a ∈ l.takeWhile p) : p a = true := by
  induction l with
  | nil => simp [List.takeWhile] at h
  | cons x xs ih =>
    by_cases hx : p x = true
    · rw [List.takeWhile_cons_of_pos hx] at h
      rcases List.mem_cons.mp h with h | h
      · rw [h]; exact hx
      · exact ih h
    · rw [List.takeWhile_cons_of_neg hx] at h
      simp at h

theorem firstWordOf_badFree (s : Str) : badFree (firstWordOf s) = true := by
  rw [badFree, List.all_eq_true]
  intro c hc
  exact mem_takeWhile_pred (fun c => !isCutChar c) s c hc

theorem mem_splitOnColons_subset (s : Str) :
    ∀ p ∈ splitOnColons s, ∀ c ∈ p, c ∈ s := by
  induction s using splitOnColons.induct with
  | case1 =>
    intro p hp
    simp [splitOnColons] at hp
    simp_all
  | case2 c =>
    intro p hp
    simp [splitOnColons] at hp
    simp_all
  | case3 c1 c2 rest hcond ih =>
    intro p hp
    rw [splitOnColons, if_pos hcond] at hp
    rcases List.mem_cons.mp hp with hp | hp
    · simp [hp]
    · intro c hc
      have hmem := ih p hp c hc
      simp [hmem]
  | case4 c1 c2 rest hcond ih =>
    intro p hp
    rw [splitOnColons, if_neg hcond] at hp
    rcases List.mem_cons.mp hp with hp | hp
    · subst hp
      intro c hc
      rcases List.mem_cons.mp hc with hc | hc
      · simp [hc]
      · have hne := splitOnColons_ne_nil (c2 :: rest)
        have hhead :
            (splitOnColons (c2 :: rest)).headD [] ∈ splitOnColons (c2 :: rest) := by
          cases h : splitOnColons (c2 :: rest) with
          | nil => exact absurd h hne
          | cons x xs => simp [h]
        exact List.mem_cons_of_mem c1 (ih _ hhead c hc)
    · intro c hc
      have hmem : p ∈ splitOnColons (c2 :: rest) := List.mem_of_mem_tail hp
      exact List.mem_cons_of_mem c1 (ih p hmem c hc)

theorem badFree_append (a b : Str) :
    badFree (a ++ b) = (badFree a && badFree b) := by
  simp [badFree, List.all_append]

theorem splitOnColons_badFree (full : Str) (h : badFree full = true)
    (p : Str) (hp : p ∈ splitOnColons full) : badFree p = true := by
  rw [badFree, List.all_eq_true]
  intro c hc
  exact (List.all_eq_true.mp h) c (mem_splitOnColons_subset full p hp c hc)

theorem getD_badFree (l : List Str) (i : Nat)
    (h : ∀ p ∈ l, badFree p = true) : badFree (l.getD i []) = true := by
  rw [List.getD_eq_getD_get?]
  cases hg : l.get? i with
  | none => rfl
  | some x => exact h x (List.get?_mem hg)

theorem shortCode_badFree (full dbg : Str) (h : badFree full = true) :
    badFree (shortCode full dbg) = true := by
  unfold shortCode
  have hseg := splitOnColons_badFree full h
  obtain ⟨x, xs, hsplit⟩ := List.exists_cons_of_ne_nil (splitOnColons_ne_nil full)
  rw [hsplit]
  simp only [List.head?_cons, Option.getD_some]
  rw [List.getLast?_eq_getLast (x :: xs) (by simp)]
  simp only [Option.getD_some]
  have hx : badFree x = true :=
    hseg x (by rw [hsplit]; exact List.mem_cons_self x xs)
  have hlast : badFree ((x :: xs).getLast (by simp)) = true :=
    hseg _ (by rw [hsplit]; exact List.getLast_mem (by simp))
  have hparent : badFree ((x :: xs).getD ((x :: xs).length - 2) []) = true :=
    getD_badFree (x :: xs) ((x :: xs).length - 2)
      (fun p hp => hseg p (by rw [hsplit]; exact hp))
  have hfw := firstWordOf_badFree dbg
  have hsep : badFree sepColons = true := by decide
  split_ifs <;> simp [badFree_append, hx, hlast, hfw, hsep]
  simpa using hparent

/-- Claim C2: the synthesised diagnostic code agrees, for every type
identity and every debug rendering, with the specification's description
of the algorithm (`shortCodeSpec`): split on `::`, crate is the first
segment and type name the last, the first word of the debug rendering is
cut at space, `(` or the opening curly brace, struct-like actions emit
`crate::type` or `crate::parent::type` by path length, enum variants emit
`crate::type::first_word`. -/
theorem short_code_matches_described_algorithm (full dbg : Str) :
    shortCode full dbg = shortCodeSpec full dbg := by
  unfold shortCode shortCodeSpec
  obtain ⟨x, xs, hsplit⟩ := List.exists_cons_of_ne_nil (splitOnColons_ne_nil full)
  rw [hsplit]
  simp only [List.head?_cons, Option.getD_some, List.headD_cons]
  rw [List.getLastD_eq_getLast?]
  rw [List.getLast?_eq_getLast (x :: xs) (by simp)]
  simp only [Option.getD_some]
  split_ifs <;> first | rfl | omega

/-- Claim C7 as stated is false: for the action type
`&dyn core::error::Error` (whose type identity contains a space before
`core`), the synthesised code returned by `code()` with no override
contains a space. -/
theorem diagnostic_code_contains_space :
    badFree
      (((Failure.from_action DynErrAction.custom).diagnosticCode
        dynErrImpl).getD []) = false := by
  decide

/-- Claim C7 as amended: whenever the type identity itself contains no
space, `(` or opening curly brace, the code returned by `code()` with no
caller override contains none either — in particular the part contributed
by the debug rendering never does. -/
theorem diagnostic_code_cut_free {A : Type} (f : Failure A)
    (ia : ActionImpl A) (hc : f.code = none)
    (ht : badFree ia.typeName = true) :
    badFree ((f.diagnosticCode ia).getD []) = true := by
  unfold Failure.diagnosticCode
  rw [hc]
  exact shortCode_badFree ia.typeName (ia.debugFmt f.action) ht

/-- Witness for the amended claim C7 at a concrete enum action. -/
theorem diagnostic_code_cut_free_witness :
    (Failure.from_action SimpleEnum.readV).code = none
      ∧ badFree simpleEnumImpl.typeName = true
      ∧ badFree
          (((Failure.from_action SimpleEnum.readV).diagnosticCode
            simpleEnumImpl).getD []) = true :=
  ⟨rfl, by decide,
    diagnostic_code_cut_free (Failure.from_action SimpleEnum.readV)
      simpleEnumImpl rfl (by decide)⟩

/-- Claim C9: cloning an `Error` always yields an absent backtrace and
copies every other field unchanged. -/
theorem clone_drops_backtrace (e : Error) :
    e.clone.backtrace = none
      ∧ e.clone.action = e.action
      ∧ e.clone.message = e.message
      ∧ e.clone.domain = e.domain
      ∧ e.clone.status_code = e.status_code :=
  ⟨rfl, rfl, rfl, rfl, rfl⟩

/-- Claim C3: `to_error` produces the display form of the action, the
display form of the source (empty when absent), the `"domain"` context
entry when present and the type-identity name otherwise, and leaves
`status_code` and `backtrace` absent. -/
theorem to_error_fields {A : Type} (f : Failure A) (ia : ActionImpl A) :
    (f.to_error ia).action = ia.displayFmt f.action
      ∧ (f.to_error ia).message = (f.source).getD []
      ∧ (f.to_error ia).domain = some ((f.get (str "domain")).getD ia.typeName)
      ∧ (f.to_error ia).status_code = none
      ∧ (f.to_error ia).backtrace = none := by
  refine ⟨rfl, ?_, ?_, rfl, rfl⟩
  · cases h : f.source <;> simp [Failure.to_error, h]
  · cases h : f.get (str "domain") <;> simp [Failure.to_error, h, orO]

/-- Claim C5: a repeated `set` of the same key behaves like the final
`set` alone, both for `get` and for the number of additional entries. -/
theorem set_set_same_key {A : Type} (f : Failure A) (k a b : Str) :
    ((f.set k a).set k b).get k = (f.set k b).get k
      ∧ ((f.set k a).set k b).additional.length
        = (f.set k b).additional.length := by
  have h : setValue k b (setValue k a f.additional) = setValue k b f.additional :=
    setValue_setValue k a b f.additional
  exact ⟨by simp [Failure.set, Failure.get, h], by simp [Failure.set, h]⟩

/-- Claim C6: the display rendering is the `"Failed to {action}"` line
followed by one `"▷ {key}: {value}"` line per additional entry, in
insertion order (and exactly the first line when there are no entries,
since the mapped list is then empty). -/
theorem display_shape {A : Type} (f : Failure A) (ia : ActionImpl A) :
    f.display ia
      = str "Failed to " ++ ia.displayFmt f.action
        ++ (f.additional.map (fun p => newline ++ entryLine p)).flatten := by
  unfold Failure.display Failure.display_additional
  cases hadd : f.additional with
  | nil => simp [hadd]
  | cons p ps =>
    rw [foldl_entryLines]
    simp

/-- Claim C8: the serialized form always carries `action` and `message`,
carries `domain` and `status_code` exactly when those fields are present,
and never carries `backtrace`. -/
theorem serialize_key_presence (e : Error) :
    (str "action") ∈ (e.serialize.map Prod.fst)
      ∧ (str "message") ∈ (e.serialize.map Prod.fst)
      ∧ ((str "domain") ∈ (e.serialize.map Prod.fst) ↔ e.domain.isSome = true)
      ∧ ((str "status_code") ∈ (e.serialize.map Prod.fst)
          ↔ e.status_code.isSome = true)
      ∧ (str "backtrace") ∉ (e.serialize.map Prod.fst) := by
  rcases e with ⟨a, m, d, sc, b⟩
  cases d <;> cases sc <;>
    simp [Error.serialize] <;> decide

theorem getValue_applyTrace {A : Type} (steps : List Step) :
    ∀ (f : Failure A) (k : Str),
      (applyTrace f steps).get k
        = orO (lastSetVal steps k) (orO (f.get k) (firstWithVal steps k)) := by
  induction steps with
  | nil =>
    intro f k
    simp [applyTrace, lastSetVal, firstWithVal, orO_none, orO_none_right]
  | cons s rest ih =>
    intro f k
    cases s with
    | withStep k' v' =>
      show (applyTrace (f.withCtx k' v') rest).get k = _
      rw [ih]
      have hget : (f.withCtx k' v').get k
          = orO (f.get k) (if k' = k then some v' else none) :=
        getValue_append_single k k' v' f.additional
      rw [hget]
      by_cases hk : k' = k
      · simp [lastSetVal, firstWithVal, hk, orO_assoc, orO_some]
      · simp [lastSetVal, firstWithVal, hk, orO_none_right]
    | setStep k' v' =>
      show (applyTrace (f.set k' v') rest).get k = _
      rw [ih]
      by_cases hk : k' = k
      · subst hk
        have hget : (f.set k' v').get k' = some v' :=
          getValue_setValue_self k' v' f.additional
        rw [hget]
        simp [lastSetVal, firstWithVal, orO_assoc, orO_some]
      · have hget : (f.set k' v').get k = f.get k :=
          getValue_setValue_ne k k' v' hk f.additional
        rw [hget]
        simp [lastSetVal, firstWithVal, hk, orO_none_right]

/-- Claim C4 as stated (a biconditional between `get` returning `v` and
"`with(k, v)` or `set(k, v)` applied with no later `set(k, v')`") is
false: after `set(k, "a"); with(k, "b")` the right-hand side holds for
`v = "b"` (the `with` was applied and no set came later), yet `get k`
returns `"a"`. -/
theorem get_claim_biconditional_fails :
    claimC4Pred c4Steps (str "k") (str "b") = true
      ∧ (applyTrace (Failure.from_action SimpleEnum.readV) c4Steps).get (str "k")
          ≠ some (str "b")
      ∧ (applyTrace (Failure.from_action SimpleEnum.readV) c4Steps).get (str "k")
          = some (str "a") := by
  decide

/-- Claim C4 as amended: for a `Failure` built from `from_action` by any
sequence of `with` and `set` steps, `get k` returns the value of the last
`set(k, ·)` when the trace contains one, otherwise the value of the first
`with(k, ·)` when the trace contains one, and otherwise absent — in
particular a later `with` never overrides an earlier `set` of the same
key. -/
theorem get_after_build {A : Type} (a : A) (steps : List Step) (k : Str) :
    (applyTrace (Failure.from_action a) steps).get k
      = orO (lastSetVal steps k) (firstWithVal steps k) := by
  rw [getValue_applyTrace]
  rfl

/-- Claim C1 is contradicted by the code: with the single include filter
`"app"` and no exclude filters, the event target `"app::run"` starts with
one of the augmented prefixes (`"app"` itself), so the claim says it is
kept; but `exclude_by_target` returns `true` (and `enabled` is `false`)
because the loop drops the event as soon as one augmented prefix — here
the appended `"rogue_logging"` — fails to match. -/
theorem include_filter_match_still_dropped :
    (([str "app"] ++ [packageName]).any
        (fun f => f.isPrefixOf (str "app::run"))) = true
      ∧ excludeByTarget c1Options (str "app::run") = true
      ∧ enabled c1Options (str "app::run") Verbosity.info = false := by
  decide

/-- Claim C10: on a first call (`IS_INITIALIZED` clear), `init` returns
`true` regardless of whether registering the boxed logger succeeds; a
registration failure is only appended to the trace log, never surfaced. -/
theorem init_first_call_ignores_registration_failure
    (s : InitState) (reg : Option Str) (v : Option Verbosity)
    (h : s.flagSet = false) :
    (initLogger s reg v).1 = true
      ∧ (initLogger s reg v).2.flagSet = true
      ∧ (initLogger s reg v).2.traced
          = s.traced ++ (match reg with
                         | none => []
                         | some e => [initFailLine e]) := by
  unfold initLogger
  rw [h]
  cases reg <;> simp

/-- Witness for claim C10 at a fresh process state and a failing
registration. -/
theorem init_first_call_witness :
    freshInitState.flagSet = false
      ∧ (initLogger freshInitState (some (str "boom")) none).1 = true
      ∧ (initLogger freshInitState (some (str "boom")) none).2.traced
          = [initFailLine (str "boom")] := by
  have h := init_first_call_ignores_registration_failure freshInitState
    (some (str "boom")) none rfl
  exact ⟨rfl, h.1, by simpa using h.2.2⟩

end RogueLogging
